import Mathlib

/-!
Shallow embedding of the diarization core of `lpa_diarizer.py`:
shape handling of the transcript document, cross-channel deduplication,
speaker-range lookup, utterance reconstruction, utterance coalescing and
record-stream rendering.  Machine floats are modelled as rationals and
fallible code returns `Except String`.
-/

/-- A numeric JSON field as the code sees it: absent (so that a `.get`
default applies), a value that `float(...)` parses, or a value on which
`float(...)` raises. -/
inductive NumField where
  | missing
  | val (q : ℚ)
  | malformed
deriving DecidableEq, Repr

/-- Models `float(x.get(field, d))`: `some` is the parsed number, `none`
means the conversion raised. -/
def NumField.parse (f : NumField) (d : ℚ) : Option ℚ :=
  match f with
  | .missing => some d
  | .val q => some q
  | .malformed => none

/-- Sort key `float(x.get("start_time", "inf"))` used on the channel path:
`none` stands for `+inf`; `.error` means the conversion raised. -/
def NumField.sortKey (f : NumField) : Except String (Option ℚ) :=
  match f with
  | .missing => .ok none
  | .val q => .ok (some q)
  | .malformed => .error "ValueError: could not convert string to float"

/-- The `alternatives` field of a token, as far as the code inspects it
(only `alternatives[0]` and its `content` are ever read). -/
inductive AltsShape where
  | absent
  | notList
  | emptyList
  | firstNotDict
  | firstDict (content : Option String)
deriving DecidableEq, Repr

/-- A token dict, restricted to the keys the code reads. -/
structure Token where
  type_ : Option String
  start_time : NumField
  end_time : NumField
  alternatives : AltsShape
  speaker_label : Option String
deriving DecidableEq, Repr

/-- Content extraction inside the dedup `try` block (lines 136-137):
`prev.get("alternatives", [{}])[0].get("content", "")`.  `some` is the
computed string, `none` means the expression raised. -/
def dedupContent (a : AltsShape) : Option String :=
  match a with
  | .absent => some ""
  | .notList => none
  | .emptyList => none
  | .firstNotDict => none
  | .firstDict c => some (c.getD "")

/-- True iff the current token is dropped by deduplication (lines 130-145):
every field access succeeds, the start times are within `0.001`, and the
contents are equal.  Any raise keeps the token (fail-open `except`). -/
def dropsB (prev curr : Token) : Bool :=
  match prev.start_time.parse (-1), curr.start_time.parse (-1),
        dedupContent prev.alternatives, dedupContent curr.alternatives with
  | some t1, some t2, some c1, some c2 =>
      decide (|t2 - t1| ≤ 1/1000) && decide (c1 = c2)
  | _, _, _, _ => false

/-- One iteration of the dedup scan; the retained list is kept reversed
(head = last retained token). -/
def dedupStep (acc : List Token) (curr : Token) : List Token :=
  match acc with
  | [] => [curr]
  | prev :: _ => if dropsB prev curr then acc else curr :: acc

/-- Lines 121-147: linear scan keeping the first item unconditionally and
comparing each later item against the last retained one. -/
def dedup (items : List Token) : List Token :=
  match items with
  | [] => []
  | x :: rest => (rest.foldl dedupStep [x]).reverse

/-- A `(start, end, label)` range from `results.speaker_labels`. -/
structure SRange where
  start_time : ℚ
  end_time : ℚ
  speaker_label : String
deriving DecidableEq, Repr

/-- Lines 65-69: first range with `st <= t < en` wins; otherwise the
fallback label. -/
def speaker_for_time (ranges : List SRange) (t : ℚ) (last_label : Option String) : Option String :=
  match ranges with
  | [] => last_label
  | r :: rest =>
    if r.start_time ≤ t ∧ t < r.end_time then some r.speaker_label
    else speaker_for_time rest t last_label

/-- `s.endswith((" ", "\n"))`. -/
def endsWithSpaceOrNewline (s : String) : Bool :=
  s.endsWith " " || s.endsWith "\n"

/-- An utterance as the coalescer manipulates it (timings present, as on
every utterance the reconstructor emits). -/
structure CoUtt where
  speaker_label : String
  start_time : ℚ
  end_time : ℚ
  text : String
deriving DecidableEq, Repr

/-- Lines 218-222: append text with the spacing rule, extend the window. -/
def mergeInto (last u : CoUtt) : CoUtt :=
  { last with
    text :=
      (if last.text ≠ "" ∧ endsWithSpaceOrNewline last.text = false
       then last.text ++ " " else last.text) ++ u.text,
    end_time := u.end_time }

/-- Lines 215-217: same speaker, and the gap is within the threshold when
one is configured (`none` = always merge). -/
def mergeCondB (g : Option ℚ) (last u : CoUtt) : Bool :=
  decide (u.speaker_label = last.speaker_label) &&
    (match g with
     | none => true
     | some gs => decide (u.start_time - last.end_time ≤ gs))

/-- One step of the coalescing fold; the accumulator is kept reversed
(head = `merged[-1]`). -/
def coStep (g : Option ℚ) (acc : List CoUtt) (u : CoUtt) : List CoUtt :=
  match acc with
  | [] => [u]
  | last :: rest =>
    if mergeCondB g last u then mergeInto last u :: rest else u :: last :: rest

/-- Lines 204-225: merge consecutive same-speaker utterances. -/
def coalesce_utterances (utterances : List CoUtt) (gap_seconds : Option ℚ) : List CoUtt :=
  match utterances with
  | [] => []
  | u :: rest => (rest.foldl (coStep gap_seconds) [u]).reverse

/-- An entry of a raw item list (non-dicts are filtered out). -/
inductive RawItem where
  | notDict
  | tok (t : Token)
deriving DecidableEq, Repr

/-- A channel entry (lines 97-105): a dict exposing an `items` list
(`none` models a missing or non-list `items` value, which contributes
nothing), a list of items directly, or something else (skipped). -/
inductive ChannelEntry where
  | chDict (items : Option (List RawItem))
  | chList (its : List RawItem)
  | chOther
deriving DecidableEq, Repr

/-- The `results.channel_labels` value (lines 87-94): a list of channels,
a dict with a `channels` key (`none` = key missing), or another shape
(yields no channels). -/
inductive ChannelLabelsVal where
  | asList (channels : List ChannelEntry)
  | asDict (channels : Option (List ChannelEntry))
  | otherShape
deriving DecidableEq, Repr

/-- A `speaker_labels` segment entry (lines 52-61). -/
inductive SegEntry where
  | notDict
  | seg (start_time end_time : NumField) (speaker_label : Option String)
deriving DecidableEq, Repr

/-- The `results.speaker_labels` value (lines 39-49): list of segments, a
dict with a `segments` key (`none` = key missing), or another shape. -/
inductive SpeakerLabelsVal where
  | asList (segs : List SegEntry)
  | asDict (segs : Option (List SegEntry))
  | otherShape
deriving DecidableEq, Repr

/-- The `results.items` value (lines 113-117): non-list values leave the
item list empty. -/
inductive ItemsVal where
  | notList
  | lst (its : List RawItem)
deriving DecidableEq, Repr

/-- The top-level `results` value: not a dict (fatal), or a dict with the
three optional keys the code reads. -/
inductive ResultsVal where
  | notDict
  | obj (speaker_labels : Option SpeakerLabelsVal)
        (channel_labels : Option ChannelLabelsVal)
        (items : Option ItemsVal)
deriving DecidableEq, Repr

/-- The transcript document; `transcribe.get("results", {})` makes a
missing `results` key behave as an empty dict. -/
structure Transcript where
  results : Option ResultsVal
deriving DecidableEq, Repr

def Transcript.resultsVal (t : Transcript) : ResultsVal :=
  t.results.getD (.obj none none none)

/-- Lines 51-62 of `_build_ranges`: parse each well-formed segment, keep
entries whose `speaker_label` is not `None` (an empty-string label is
kept). -/
def rangesOfSegs (segs : List SegEntry) : Except String (List SRange) :=
  match segs with
  | [] => .ok []
  | .notDict :: rest => rangesOfSegs rest
  | .seg stf enf lab :: rest =>
    match stf.parse 0, enf.parse 0 with
    | some st, some en =>
      (rangesOfSegs rest).map (fun r =>
        match lab with
        | some l => ⟨st, en, l⟩ :: r
        | none => r)
    | _, _ => .error "ValueError: could not convert string to float"

/-- Lines 27-63 of `_build_ranges`; the `notDict` case is unreachable in
the pipeline because `reconstruct` raises on it first. -/
def build_ranges (r : ResultsVal) : Except String (List SRange) :=
  match r with
  | .notDict => .ok []
  | .obj sl _ _ =>
    match sl with
    | none => .ok []
    | some v =>
      rangesOfSegs
        (match v with
         | .asList l => l
         | .asDict o => o.getD []
         | .otherShape => [])

def tokensOfRaw (l : List RawItem) : List Token :=
  l.filterMap (fun r => match r with | .notDict => none | .tok t => some t)

def ChannelEntry.itemsOf (c : ChannelEntry) : List RawItem :=
  match c with
  | .chDict (some its) => its
  | .chDict none => []
  | .chList its => its
  | .chOther => []

/-- Key order with `none` as `+inf`. -/
def keyLe (a b : Option ℚ) : Bool :=
  match a, b with
  | _, none => true
  | none, some _ => false
  | some x, some y => decide (x ≤ y)

/-- Stable insertion: the new pair goes before the first entry with a
strictly larger key, after entries with an equal key. -/
def insertKeyed (p : Option ℚ × Token) (l : List (Option ℚ × Token)) : List (Option ℚ × Token) :=
  match l with
  | [] => [p]
  | q :: rest => if keyLe p.1 q.1 then p :: q :: rest else q :: insertKeyed p rest

def sortKeyed (l : List (Option ℚ × Token)) : List (Option ℚ × Token) :=
  l.foldr insertKeyed []

/-- Line 111: stable sort of merged channel items by
`float(x.get("start_time", "inf"))`; raises if some key is unparseable. -/
def sortByStart (toks : List Token) : Except String (List Token) :=
  (toks.mapM (fun (t : Token) => (t.start_time.sortKey).map (fun k => (k, t)))).map
    (fun keyed => (sortKeyed keyed).map (fun p => p.2))

/-- Lines 82-119: harvest the token list, preferring the channel path. -/
def harvestItems (r : ResultsVal) : Except String (List Token) :=
  match r with
  | .notDict => .error "TypeError: the results key should be a dict"
  | .obj _ (some clv) _ =>
    sortByStart (tokensOfRaw
      ((match clv with
        | .asList cs => cs
        | .asDict o => o.getD []
        | .otherShape => []).foldl (fun acc (c : ChannelEntry) => acc ++ c.itemsOf) []))
  | .obj _ none (some (.lst raw)) => .ok (tokensOfRaw raw)
  | .obj _ none (some .notList) => .ok []
  | .obj _ none none => .error "ValueError: Transcript missing items or channel_labels."

/-- Token content on the reconstruction path (lines 171-173): `none` means
the token is skipped (`continue`). -/
def altsContent (a : AltsShape) : Option String :=
  match a with
  | .absent => none
  | .notList => none
  | .emptyList => none
  | .firstNotDict => some ""
  | .firstDict c => some (c.getD "")

/-- An utterance dict as appended at line 159 (`start_time`/`end_time`
copied from the buffer, hence optional). -/
structure Utt where
  speaker_label : String
  start_time : Option ℚ
  end_time : Option ℚ
  text : String
deriving DecidableEq, Repr

/-- The segmentation buffer `cur` (line 153). -/
structure Buf where
  speaker_label : Option String
  start_time : Option ℚ
  end_time : Option ℚ
  text_parts : List String
deriving DecidableEq, Repr

def Buf.empty : Buf := ⟨none, none, none, []⟩

/-- The loop state: emitted utterances, buffer, `last_word_end`. -/
structure RState where
  utterances : List Utt
  cur : Buf
  last_word_end : Option ℚ
deriving DecidableEq, Repr

def RState.init : RState := ⟨[], Buf.empty, none⟩

/-- Lines 156-165: what `_flush` emits — `none` when the buffer lacks a
truthy label or has no accumulated part. -/
def emitOf (b : Buf) : Option Utt :=
  match b.speaker_label with
  | some l =>
    if l ≠ "" ∧ b.text_parts ≠ [] then
      some ⟨l, b.start_time, b.end_time, (String.join b.text_parts).trim⟩
    else none
  | none => none

def flushBuf (s : RState) : RState :=
  ⟨s.utterances ++ (emitOf s.cur).toList, Buf.empty, s.last_word_end⟩

/-- Python truthiness of the inline label: `None` and `""` are falsy. -/
def truthyLabel (o : Option String) : Option String :=
  match o with
  | some l => if l = "" then none else some l
  | none => none

/-- Lines 180-182: the token's inline label if truthy, else the range
lookup with the current buffer's speaker as fallback. -/
def resolveLabel (ranges : List SRange) (st : ℚ) (curLabel : Option String) (inl : Option String) : Option String :=
  match truthyLabel inl with
  | some l => some l
  | none => speaker_for_time ranges st curLabel

/-- Line 185, right disjunct: `last_word_end is not None and
st - last_word_end > gap_seconds`. -/
def shouldGapFlush (lwe : Option ℚ) (st gap : ℚ) : Bool :=
  match lwe with
  | none => false
  | some lw => decide (gap < st - lw)

/-- Lines 190-194: space insertion rule, then the new content. -/
def appendPart (parts : List String) (content : String) : List String :=
  (match parts.getLast? with
   | some lastPart => if endsWithSpaceOrNewline lastPart then parts else parts ++ [" "]
   | none => parts) ++ [content]

/-- Lines 168-199: one iteration of the reconstruction loop. -/
def reconStep (ranges : List SRange) (gap : ℚ) (s : RState) (it : Token) : Except String RState :=
  match altsContent it.alternatives with
  | none => .ok s
  | some content =>
    if it.type_ = some "pronunciation" then
      match it.start_time.parse 0, it.end_time.parse 0 with
      | some st, some en =>
        let label := resolveLabel ranges st s.cur.speaker_label it.speaker_label
        let s1 :=
          if label ≠ s.cur.speaker_label ∨ shouldGapFlush s.last_word_end st gap = true then
            let f := flushBuf s
            (⟨f.utterances, ⟨label, some st, f.cur.end_time, f.cur.text_parts⟩, f.last_word_end⟩ : RState)
          else s
        .ok ⟨s1.utterances,
             ⟨s1.cur.speaker_label, s1.cur.start_time, some en, appendPart s1.cur.text_parts content⟩,
             some en⟩
      | _, _ => .error "ValueError: could not convert string to float"
    else
      .ok ⟨s.utterances,
           ⟨s.cur.speaker_label, s.cur.start_time, s.cur.end_time, s.cur.text_parts ++ [content]⟩,
           s.last_word_end⟩

/-- Lines 152-202 once items and ranges are fixed: fold the loop, then the
final unconditional flush. -/
def reconLoop (ranges : List SRange) (gap : ℚ) (items : List Token) : Except String (List Utt) :=
  (items.foldlM (reconStep ranges gap) RState.init).map (fun s => (flushBuf s).utterances)

/-- Lines 71-202: harvest, deduplicate, build ranges, reconstruct. -/
def reconstruct_utterances_with_timestamps (t : Transcript) (gap_seconds : ℚ) : Except String (List Utt) := do
  let items0 ← harvestItems t.resultsVal
  let items := dedup items0
  let ranges ← build_ranges t.resultsVal
  reconLoop ranges gap_seconds items

/-- One line of the record stream, i.e. the dict handed to `json.dumps`
at lines 259-265. -/
structure JsonlRecord where
  start_time : Option ℚ
  end_time : Option ℚ
  speaker_label : String
  speaker_name : Option String
  text : String
deriving DecidableEq, Repr

/-- `speaker_map.get(label, None)` over an association list. -/
def lookupMap (m : List (String × String)) (k : String) : Option String :=
  match m with
  | [] => none
  | p :: rest => if p.1 = k then some p.2 else lookupMap rest k

/-- Lines 255-266: one record per (uncoalesced) utterance, in order. -/
def utterances_to_jsonl (utterances : List Utt) (speaker_map : List (String × String)) : List JsonlRecord :=
  utterances.map (fun u =>
    ⟨u.start_time, u.end_time, u.speaker_label, lookupMap speaker_map u.speaker_label, u.text⟩)

/-- A standard pronunciation token with parseable times and content. -/
def pronTok (st en : ℚ) (c : String) (lab : Option String) : Token :=
  ⟨some "pronunciation", .val st, .val en, .firstDict (some c), lab⟩

/-- A punctuation token (no timing). -/
def punctTok (c : String) : Token :=
  ⟨some "punctuation", .missing, .missing, .firstDict (some c), none⟩

/-- A document whose `results` dict carries only a flat `items` list. -/
def itemsDoc (its : List Token) : Transcript :=
  ⟨some (.obj none none (some (.lst (its.map RawItem.tok))))⟩

/-- The start time a token contributes on the pronunciation branch of the
reconstruction loop (`none` for skipped or punctuation tokens). -/
def pronStartOf (it : Token) : Option ℚ :=
  match altsContent it.alternatives with
  | none => none
  | some _ => if it.type_ = some "pronunciation" then it.start_time.parse 0 else none

/-- Start times are comparable and nondecreasing (vacuous when absent). -/
def uttLeB (a b : Utt) : Bool :=
  match a.start_time, b.start_time with
  | some qa, some qb => decide (qa ≤ qb)
  | _, _ => true

/-- The `[start_time, end_time]` windows do not overlap (vacuous when a
bound is absent). -/
def intervalsDisjointB (a b : Utt) : Bool :=
  match a.start_time, a.end_time, b.start_time, b.end_time with
  | some sa, some ea, some sb, some eb => decide (ea ≤ sb) || decide (eb ≤ sa)
  | _, _, _, _ => true

def allPairsB (p : Utt → Utt → Bool) : List Utt → Bool
  | [] => true
  | a :: t => t.all (p a) && allPairsB p t

/-- No two utterances of the same speaker have overlapping windows. -/
def sameSpeakerDisjointB (us : List Utt) : Bool :=
  allPairsB (fun a b => !(decide (a.speaker_label = b.speaker_label)) || intervalsDisjointB a b) us

/-- The token has a missing or unparseable `start_time`, or a missing or
malformed `alternatives[0].content`. -/
def dedupFieldIssueB (t : Token) : Bool :=
  (match t.start_time with | .val _ => false | _ => true) ||
  (match t.alternatives with | .firstDict (some _) => false | _ => true)

/-- `speaker_name` is null exactly when the label misses the map, for every
record of the list. -/
def recordsNullOk (m : List (String × String)) : List JsonlRecord → Prop
  | [] => True
  | r :: rest => (r.speaker_name = none ↔ lookupMap m r.speaker_label = none) ∧ recordsNullOk m rest

/-- Loop-state invariant for the ordering proof: emitted starts are
pairwise nondecreasing, bounded by `q`, and below the buffer's start. -/
def c2Inv (s : RState) (q : ℚ) : Prop :=
  List.Pairwise (fun a b => uttLeB a b = true) s.utterances ∧
  (∀ u ∈ s.utterances, ∀ a, u.start_time = some a → a ≤ q) ∧
  (∀ c, s.cur.start_time = some c → c ≤ q ∧ ∀ u ∈ s.utterances, ∀ a, u.start_time = some a → a ≤ c)

/-! ## Helper lemmas: deduplication -/

theorem foldl_dedupStep_append (l : List Token) : ∀ (prev : Token) (acc : List Token),
    l.foldl dedupStep (prev :: acc) = l.foldl dedupStep [prev] ++ acc := by
  induction l with
  | nil => intro prev acc; rfl
  | cons c l' ih =>
    intro prev acc
    simp only [List.foldl_cons, dedupStep]
    by_cases h : dropsB prev c
    · rw [if_pos h, if_pos h]
      exact ih prev acc
    · rw [if_neg h, if_neg h, ih c (prev :: acc), ih c [prev], List.append_assoc]
      rfl

theorem dedup_cons_cons (a b : Token) (l : List Token) :
    dedup (a :: b :: l) = if dropsB a b then dedup (a :: l) else a :: dedup (b :: l) := by
  have h1 : dedup (a :: b :: l) = (l.foldl dedupStep (dedupStep [a] b)).reverse := rfl
  by_cases h : dropsB a b
  · rw [h1, show dedupStep [a] b = [a] from by simp [dedupStep, h], if_pos h]
    rfl
  · rw [h1, show dedupStep [a] b = b :: [a] from by simp [dedupStep, h], if_neg h,
      foldl_dedupStep_append l b [a], List.reverse_append]
    rfl

theorem foldl_dedupStep_last (l : List Token) : ∀ (x : Token),
    ∃ pre, l.foldl dedupStep [x] = pre ++ [x] := by
  induction l with
  | nil => intro x; exact ⟨[], rfl⟩
  | cons c l' ih =>
    intro x
    simp only [List.foldl_cons, dedupStep]
    by_cases h : dropsB x c
    · simpa only [h, if_true] using ih x
    · simp only [h, if_false, Bool.false_eq_true]
      obtain ⟨pre, hp⟩ := ih c
      exact ⟨pre ++ [c], by rw [foldl_dedupStep_append l' c [x], hp, List.append_assoc]⟩

theorem dedup_head (x : Token) (l : List Token) : (dedup (x :: l)).head? = some x := by
  obtain ⟨pre, hp⟩ := foldl_dedupStep_last l x
  simp [dedup, hp]

/-! ## Helper lemmas: coalescing -/

theorem mergeCondB_mergeInto (g : Option ℚ) (p last u : CoUtt) :
    mergeCondB g p (mergeInto last u) = mergeCondB g p last := rfl

theorem coFold_chain (g : Option ℚ) : ∀ (l : List CoUtt) (last : CoUtt) (acc : List CoUtt),
    List.Chain (fun a b => mergeCondB g b a = false) last acc →
    ∃ last' acc', l.foldl (coStep g) (last :: acc) = last' :: acc' ∧
      List.Chain (fun a b => mergeCondB g b a = false) last' acc' := by
  intro l
  induction l with
  | nil => exact fun last acc h => ⟨last, acc, rfl, h⟩
  | cons u t ih =>
    intro last acc h
    simp only [List.foldl_cons, coStep]
    by_cases hm : mergeCondB g last u
    · rw [if_pos hm]
      refine ih (mergeInto last u) acc ?_
      cases h with
      | nil => exact List.Chain.nil
      | cons hr hc =>
        refine List.Chain.cons ?_ hc
        rw [mergeCondB_mergeInto]
        exact hr
    · rw [if_neg hm]
      refine ih u (last :: acc) (List.Chain.cons ?_ h)
      simpa using hm

theorem coFold_no_merge (g : Option ℚ) : ∀ (l : List CoUtt) (last : CoUtt) (acc : List CoUtt),
    List.Chain (fun a b => mergeCondB g a b = false) last l →
    l.foldl (coStep g) (last :: acc) = l.reverse ++ (last :: acc) := by
  intro l
  induction l with
  | nil => intro last acc _; rfl
  | cons u t ih =>
    intro last acc h
    cases h with
    | cons hr hc =>
      have hne : ¬(mergeCondB g last u = true) := by simp [hr]
      simp only [List.foldl_cons, coStep, if_neg hne]
      rw [ih u (last :: acc) hc]
      simp

theorem coalesce_chain (us : List CoUtt) (g : Option ℚ) :
    List.Chain' (fun a b => mergeCondB g a b = false) (coalesce_utterances us g) := by
  cases us with
  | nil => exact trivial
  | cons u rest =>
    obtain ⟨last', acc', hf, hc⟩ := coFold_chain g rest u [] List.Chain.nil
    show List.Chain' (fun a b => mergeCondB g a b = false) ((rest.foldl (coStep g) [u]).reverse)
    rw [hf, List.chain'_reverse]
    exact hc

theorem coalesce_of_chain (us : List CoUtt) (g : Option ℚ)
    (h : List.Chain' (fun a b => mergeCondB g a b = false) us) :
    coalesce_utterances us g = us := by
  cases us with
  | nil => rfl
  | cons u rest =>
    show (rest.foldl (coStep g) [u]).reverse = u :: rest
    rw [coFold_no_merge g rest u [] h]
    simp

/-! ## Helper lemmas: lookups -/

theorem lookupMap_none_iff (m : List (String × String)) (k : String) :
    lookupMap m k = none ↔ m.all (fun p => !(p.1 == k)) = true := by
  induction m with
  | nil => simp [lookupMap]
  | cons p rest ih =>
    by_cases h : p.1 = k
    · simp [lookupMap, h]
    · simp [lookupMap, h, ih]

theorem speaker_for_time_find (ranges : List SRange) (t : ℚ) (fb : Option String) :
    speaker_for_time ranges t fb =
      match ranges.find? (fun r => decide (r.start_time ≤ t ∧ t < r.end_time)) with
      | some r => some r.speaker_label
      | none => fb := by
  induction ranges with
  | nil => rfl
  | cons r rest ih =>
    by_cases h : r.start_time ≤ t ∧ t < r.end_time
    · simp [speaker_for_time, h, List.find?]
    · simp [speaker_for_time, h, List.find?, ih]

/-! ## Helper lemmas: reconstruction step and flush -/

theorem reconStep_skip (ranges : List SRange) (gap : ℚ) (s : RState) (it : Token)
    (h : altsContent it.alternatives = none) :
    reconStep ranges gap s it = .ok s := by
  simp [reconStep, h]

theorem reconStep_punct (ranges : List SRange) (gap : ℚ) (s : RState) (it : Token) (content : String)
    (h : altsContent it.alternatives = some content)
    (ht : ¬ it.type_ = some "pronunciation") :
    reconStep ranges gap s it =
      .ok ⟨s.utterances,
           ⟨s.cur.speaker_label, s.cur.start_time, s.cur.end_time, s.cur.text_parts ++ [content]⟩,
           s.last_word_end⟩ := by
  simp [reconStep, h, ht]

theorem reconStep_pron (ranges : List SRange) (gap : ℚ) (s : RState) (it : Token)
    (content : String) (st en : ℚ)
    (h : altsContent it.alternatives = some content)
    (ht : it.type_ = some "pronunciation")
    (hst : it.start_time.parse 0 = some st)
    (hen : it.end_time.parse 0 = some en) :
    reconStep ranges gap s it =
      (let label := resolveLabel ranges st s.cur.speaker_label it.speaker_label
       let s1 := if label ≠ s.cur.speaker_label ∨ shouldGapFlush s.last_word_end st gap = true then
           (⟨(flushBuf s).utterances, ⟨label, some st, none, []⟩, s.last_word_end⟩ : RState)
         else s
       .ok ⟨s1.utterances,
            ⟨s1.cur.speaker_label, s1.cur.start_time, some en, appendPart s1.cur.text_parts content⟩,
            some en⟩) := by
  simp [reconStep, h, ht, hst, hen, flushBuf, Buf.empty]

theorem reconStep_pron_err (ranges : List SRange) (gap : ℚ) (s : RState) (it : Token)
    (content : String)
    (h : altsContent it.alternatives = some content)
    (ht : it.type_ = some "pronunciation")
    (hbad : it.start_time.parse 0 = none ∨ it.end_time.parse 0 = none) :
    reconStep ranges gap s it = .error "ValueError: could not convert string to float" := by
  rcases hbad with hb | hb
  · simp [reconStep, h, ht, hb]
  · cases hst : it.start_time.parse 0 <;> simp [reconStep, h, ht, hb, hst]

theorem emitOf_fields (b : Buf) (u : Utt) (h : emitOf b = some u) :
    b.speaker_label = some u.speaker_label ∧ u.speaker_label ≠ "" ∧ u.start_time = b.start_time := by
  obtain ⟨lb, bst, ben, parts⟩ := b
  cases lb with
  | none => exact Option.noConfusion h
  | some l =>
    by_cases hc : l ≠ "" ∧ parts ≠ []
    · rw [show emitOf ⟨some l, bst, ben, parts⟩ =
          if l ≠ "" ∧ parts ≠ [] then some ⟨l, bst, ben, (String.join parts).trim⟩ else none
        from rfl, if_pos hc] at h
      cases h
      exact ⟨rfl, hc.1, rfl⟩
    · rw [show emitOf ⟨some l, bst, ben, parts⟩ =
          if l ≠ "" ∧ parts ≠ [] then some ⟨l, bst, ben, (String.join parts).trim⟩ else none
        from rfl, if_neg hc] at h
      exact Option.noConfusion h

theorem flushBuf_utterances (s : RState) :
    (flushBuf s).utterances = s.utterances ∨
    ∃ u, emitOf s.cur = some u ∧ (flushBuf s).utterances = s.utterances ++ [u] := by
  cases he : emitOf s.cur with
  | none => exact Or.inl (by simp [flushBuf, he])
  | some u => exact Or.inr ⟨u, rfl, by simp [flushBuf, he]⟩

theorem flushBuf_of_label_none (s : RState) (h : s.cur.speaker_label = none) :
    (flushBuf s).utterances = s.utterances := by
  simp [flushBuf, emitOf, h]

theorem foldlM_recon_inv (ranges : List SRange) (gap : ℚ) (P : RState → Prop)
    (hstep : ∀ s it s', P s → reconStep ranges gap s it = .ok s' → P s') :
    ∀ (items : List Token) (s s' : RState), P s →
      items.foldlM (reconStep ranges gap) s = .ok s' → P s' := by
  intro items
  induction items with
  | nil =>
    intro s s' hP h
    exact (Except.ok.inj h) ▸ hP
  | cons it rest ih =>
    intro s s' hP h
    rw [List.foldlM_cons] at h
    cases hr : reconStep ranges gap s it with
    | error e => rw [hr] at h; exact Except.noConfusion h
    | ok s1 =>
      rw [hr] at h
      exact ih s1 s' (hstep s it s1 hP hr) h

/-! ## Helper lemmas: ordering invariant of the reconstruction loop -/

theorem uttLeB_of_le (a b : Utt)
    (h : ∀ qa qb, a.start_time = some qa → b.start_time = some qb → qa ≤ qb) :
    uttLeB a b = true := by
  unfold uttLeB
  cases ha : a.start_time with
  | none => rfl
  | some qa =>
    cases hb : b.start_time with
    | none => rfl
    | some qb => exact decide_eq_true (h qa qb ha hb)

theorem reconStep_pron_flush (ranges : List SRange) (gap : ℚ) (s : RState) (it : Token)
    (content : String) (st en : ℚ)
    (h : altsContent it.alternatives = some content)
    (ht : it.type_ = some "pronunciation")
    (hst : it.start_time.parse 0 = some st)
    (hen : it.end_time.parse 0 = some en)
    (hcond : resolveLabel ranges st s.cur.speaker_label it.speaker_label ≠ s.cur.speaker_label ∨
      shouldGapFlush s.last_word_end st gap = true) :
    reconStep ranges gap s it =
      .ok ⟨(flushBuf s).utterances,
           ⟨resolveLabel ranges st s.cur.speaker_label it.speaker_label, some st, some en, [content]⟩,
           some en⟩ := by
  rw [reconStep_pron ranges gap s it content st en h ht hst hen]
  simp only [if_pos hcond]
  rfl

theorem reconStep_pron_noflush (ranges : List SRange) (gap : ℚ) (s : RState) (it : Token)
    (content : String) (st en : ℚ)
    (h : altsContent it.alternatives = some content)
    (ht : it.type_ = some "pronunciation")
    (hst : it.start_time.parse 0 = some st)
    (hen : it.end_time.parse 0 = some en)
    (hcond : ¬(resolveLabel ranges st s.cur.speaker_label it.speaker_label ≠ s.cur.speaker_label ∨
      shouldGapFlush s.last_word_end st gap = true)) :
    reconStep ranges gap s it =
      .ok ⟨s.utterances,
           ⟨s.cur.speaker_label, s.cur.start_time, some en, appendPart s.cur.text_parts content⟩,
           some en⟩ := by
  rw [reconStep_pron ranges gap s it content st en h ht hst hen]
  simp only [if_neg hcond]

theorem c2Inv_flush (s : RState) (q : ℚ) (h : c2Inv s q) :
    List.Pairwise (fun a b => uttLeB a b = true) (flushBuf s).utterances ∧
    (∀ u ∈ (flushBuf s).utterances, ∀ a, u.start_time = some a → a ≤ q) := by
  rcases flushBuf_utterances s with heq | ⟨u, hu, heq⟩
  · rw [heq]; exact ⟨h.1, h.2.1⟩
  · rw [heq]
    have hustart : u.start_time = s.cur.start_time := (emitOf_fields s.cur u hu).2.2
    constructor
    · rw [List.pairwise_append]
      refine ⟨h.1, List.pairwise_singleton _ _, ?_⟩
      intro p hp v hv
      rw [List.mem_singleton] at hv
      subst hv
      refine uttLeB_of_le p v ?_
      intro qa qb hqa hqb
      rw [hustart] at hqb
      exact ((h.2.2 qb hqb).2 p hp qa hqa)
    · intro v hv a hva
      rcases List.mem_append.mp hv with hv' | hv'
      · exact h.2.1 v hv' a hva
      · rw [List.mem_singleton] at hv'
        subst hv'
        rw [hustart] at hva
        exact (h.2.2 a hva).1

theorem sorted_headD_le (l : List ℚ) (h : List.Pairwise (· ≤ ·) l) :
    ∀ x ∈ l, l.headD 0 ≤ x := by
  cases l with
  | nil => intro x hx; exact absurd hx (List.not_mem_nil x)
  | cons a t =>
    intro x hx
    rcases List.mem_cons.mp hx with rfl | hx'
    · exact le_refl x
    · exact (List.pairwise_cons.mp h).1 x hx'

theorem except_ok_bind {α β : Type} {a : α} {k : α → Except String β} {r : Except String β}
    (h : (Except.ok a >>= k) = r) : k a = r := h

theorem c2_fold (ranges : List SRange) (gap : ℚ) :
    ∀ (items : List Token) (s : RState) (q : ℚ) (s' : RState),
      c2Inv s q →
      (∀ x ∈ items.filterMap pronStartOf, q ≤ x) →
      List.Pairwise (· ≤ ·) (items.filterMap pronStartOf) →
      items.foldlM (reconStep ranges gap) s = .ok s' →
      ∃ r, c2Inv s' r := by
  intro items
  induction items with
  | nil =>
    intro s q s' h _ _ hf
    exact ⟨q, (Except.ok.inj hf) ▸ h⟩
  | cons it rest ih =>
    intro s q s' h hlb hsorted hf
    rw [List.foldlM_cons] at hf
    cases hac : altsContent it.alternatives with
    | none =>
      rw [reconStep_skip ranges gap s it hac] at hf
      have hps : pronStartOf it = none := by simp [pronStartOf, hac]
      rw [List.filterMap_cons, hps] at hlb hsorted
      exact ih s q s' h hlb hsorted hf
    | some content =>
      by_cases ht : it.type_ = some "pronunciation"
      · cases hst : it.start_time.parse 0 with
        | none =>
          rw [reconStep_pron_err ranges gap s it content hac ht (Or.inl hst)] at hf
          exact Except.noConfusion hf
        | some st =>
          cases hen : it.end_time.parse 0 with
          | none =>
            rw [reconStep_pron_err ranges gap s it content hac ht (Or.inr hen)] at hf
            exact Except.noConfusion hf
          | some en =>
            have hps : pronStartOf it = some st := by simp [pronStartOf, hac, ht, hst]
            rw [List.filterMap_cons, hps] at hlb hsorted
            have hqst : q ≤ st := hlb st (List.mem_cons_self _ _)
            have hlb' : ∀ x ∈ rest.filterMap pronStartOf, st ≤ x :=
              fun x hx => (List.pairwise_cons.mp hsorted).1 x hx
            have hsorted' : List.Pairwise (· ≤ ·) (rest.filterMap pronStartOf) :=
              (List.pairwise_cons.mp hsorted).2
            by_cases hcond : resolveLabel ranges st s.cur.speaker_label it.speaker_label ≠ s.cur.speaker_label ∨
                shouldGapFlush s.last_word_end st gap = true
            · rw [reconStep_pron_flush ranges gap s it content st en hac ht hst hen hcond] at hf
              refine ih _ st s' ?_ hlb' hsorted' hf
              refine ⟨(c2Inv_flush s q h).1, ?_, ?_⟩
              · intro u hu a hua
                exact le_trans ((c2Inv_flush s q h).2 u hu a hua) hqst
              · intro c hc
                cases hc
                refine ⟨le_refl st, ?_⟩
                intro u hu a hua
                exact le_trans ((c2Inv_flush s q h).2 u hu a hua) hqst
            · rw [reconStep_pron_noflush ranges gap s it content st en hac ht hst hen hcond] at hf
              refine ih _ st s' ?_ hlb' hsorted' hf
              refine ⟨h.1, ?_, ?_⟩
              · intro u hu a hua
                exact le_trans (h.2.1 u hu a hua) hqst
              · intro c hc
                have := h.2.2 c hc
                exact ⟨le_trans this.1 hqst, this.2⟩
      · rw [reconStep_punct ranges gap s it content hac ht] at hf
        have hps : pronStartOf it = none := by simp [pronStartOf, hac, ht]
        rw [List.filterMap_cons, hps] at hlb hsorted
        have hf' : rest.foldlM (reconStep ranges gap)
            (⟨s.utterances,
              ⟨s.cur.speaker_label, s.cur.start_time, s.cur.end_time, s.cur.text_parts ++ [content]⟩,
              s.last_word_end⟩ : RState) = .ok s' := hf
        exact ih (⟨s.utterances,
              ⟨s.cur.speaker_label, s.cur.start_time, s.cur.end_time, s.cur.text_parts ++ [content]⟩,
              s.last_word_end⟩ : RState) q s' ⟨h.1, h.2.1, h.2.2⟩ hlb hsorted hf'

theorem reconLoop_pairwise (ranges : List SRange) (gap : ℚ) (items : List Token) (us : List Utt)
    (hsorted : List.Pairwise (· ≤ ·) (items.filterMap pronStartOf))
    (hok : reconLoop ranges gap items = .ok us) :
    List.Pairwise (fun a b => uttLeB a b = true) us := by
  unfold reconLoop at hok
  cases hfold : items.foldlM (reconStep ranges gap) RState.init with
  | error e => rw [hfold] at hok; exact Except.noConfusion hok
  | ok sfin =>
    rw [hfold] at hok
    have hus : us = (flushBuf sfin).utterances := (Except.ok.inj hok).symm
    have hinit : c2Inv RState.init ((items.filterMap pronStartOf).headD 0) := by
      refine ⟨List.Pairwise.nil, ?_, ?_⟩
      · intro u hu
        exact absurd hu (List.not_mem_nil u)
      · intro c hc
        exact Option.noConfusion hc
    obtain ⟨r, hr⟩ := c2_fold ranges gap items RState.init _ sfin hinit
      (sorted_headD_le _ hsorted) hsorted hfold
    rw [hus]
    exact (c2Inv_flush sfin r hr).1

/-! ## Helper lemmas: emitted labels and flush discards -/

theorem reconStep_utterances_cases (ranges : List SRange) (gap : ℚ) (s : RState) (it : Token)
    (s' : RState) (h : reconStep ranges gap s it = .ok s') :
    s'.utterances = s.utterances ∨ s'.utterances = (flushBuf s).utterances := by
  cases hac : altsContent it.alternatives with
  | none =>
    rw [reconStep_skip ranges gap s it hac] at h
    cases Except.ok.inj h
    exact Or.inl rfl
  | some content =>
    by_cases ht : it.type_ = some "pronunciation"
    · cases hst : it.start_time.parse 0 with
      | none =>
        rw [reconStep_pron_err ranges gap s it content hac ht (Or.inl hst)] at h
        exact Except.noConfusion h
      | some st =>
        cases hen : it.end_time.parse 0 with
        | none =>
          rw [reconStep_pron_err ranges gap s it content hac ht (Or.inr hen)] at h
          exact Except.noConfusion h
        | some en =>
          by_cases hcond : resolveLabel ranges st s.cur.speaker_label it.speaker_label ≠ s.cur.speaker_label ∨
              shouldGapFlush s.last_word_end st gap = true
          · rw [reconStep_pron_flush ranges gap s it content st en hac ht hst hen hcond] at h
            cases Except.ok.inj h
            exact Or.inr rfl
          · rw [reconStep_pron_noflush ranges gap s it content st en hac ht hst hen hcond] at h
            cases Except.ok.inj h
            exact Or.inl rfl
    · rw [reconStep_punct ranges gap s it content hac ht] at h
      cases Except.ok.inj h
      exact Or.inl rfl

theorem flushBuf_labels (s : RState) (hP : ∀ u ∈ s.utterances, u.speaker_label ≠ "") :
    ∀ u ∈ (flushBuf s).utterances, u.speaker_label ≠ "" := by
  rcases flushBuf_utterances s with heq | ⟨u, hu, heq⟩
  · rw [heq]; exact hP
  · rw [heq]
    intro v hv
    rcases List.mem_append.mp hv with h1 | h2
    · exact hP v h1
    · rw [List.mem_singleton] at h2
      subst h2
      exact (emitOf_fields s.cur v hu).2.1

theorem reconLoop_labels (ranges : List SRange) (gap : ℚ) (items : List Token) (us : List Utt)
    (hok : reconLoop ranges gap items = .ok us) :
    ∀ u ∈ us, u.speaker_label ≠ "" := by
  unfold reconLoop at hok
  cases hfold : items.foldlM (reconStep ranges gap) RState.init with
  | error e => rw [hfold] at hok; exact Except.noConfusion hok
  | ok sfin =>
    rw [hfold] at hok
    have hus : us = (flushBuf sfin).utterances := (Except.ok.inj hok).symm
    have hP : ∀ u ∈ sfin.utterances, u.speaker_label ≠ "" := by
      refine foldlM_recon_inv ranges gap (fun s => ∀ u ∈ s.utterances, u.speaker_label ≠ "") ?_
        items RState.init sfin ?_ hfold
      · intro s it s' hPs hstep
        rcases reconStep_utterances_cases ranges gap s it s' hstep with he | he
        · rw [he]; exact hPs
        · rw [he]; exact flushBuf_labels s hPs
      · intro u hu
        exact absurd hu (List.not_mem_nil u)
    rw [hus]
    exact flushBuf_labels sfin hP

theorem reconstruct_ok_loop (t : Transcript) (gap : ℚ) (us : List Utt)
    (h : reconstruct_utterances_with_timestamps t gap = .ok us) :
    ∃ items0 ranges, reconLoop ranges gap (dedup items0) = .ok us := by
  unfold reconstruct_utterances_with_timestamps at h
  cases h1 : harvestItems t.resultsVal with
  | error e => rw [h1] at h; exact Except.noConfusion h
  | ok items0 =>
    rw [h1] at h
    have h' : (build_ranges t.resultsVal >>= fun ranges =>
        reconLoop ranges gap (dedup items0)) = .ok us := h
    cases h2 : build_ranges t.resultsVal with
    | error e => rw [h2] at h'; exact Except.noConfusion h'
    | ok ranges =>
      rw [h2] at h'
      exact ⟨items0, ranges, h'⟩

/-! ## Claim theorems -/

/-- C1: deduplication is a linear scan that retains the first token
unconditionally; each subsequent token is compared against the last
retained token (not the last seen) and removed iff both start times parse
(`-1.0` default for missing), lie within `0.001` of each other, and the
contents are equal; an adjacent pair differing only in text at the same
timestamp is retained, and two identical tokens separated by a distinct
intervening token are all kept. -/
theorem C1_dedup_scan :
    (∀ (x : Token) (l : List Token), (dedup (x :: l)).head? = some x) ∧
    (∀ (a b : Token) (l : List Token),
      dedup (a :: b :: l) = if dropsB a b then dedup (a :: l) else a :: dedup (b :: l)) ∧
    (∀ a b : Token, dropsB a b = true ↔
      ∃ t1 t2 c1 c2, a.start_time.parse (-1) = some t1 ∧ b.start_time.parse (-1) = some t2 ∧
        dedupContent a.alternatives = some c1 ∧ dedupContent b.alternatives = some c2 ∧
        |t2 - t1| ≤ 1/1000 ∧ c1 = c2) ∧
    dedup [pronTok 1 (3/2) "Well" none, pronTok 1 (3/2) "Hm" none] =
      [pronTok 1 (3/2) "Well" none, pronTok 1 (3/2) "Hm" none] ∧
    dedup [pronTok 1 (3/2) "Well" none, pronTok 1 (3/2) "so" none, pronTok 1 (3/2) "Well" none] =
      [pronTok 1 (3/2) "Well" none, pronTok 1 (3/2) "so" none, pronTok 1 (3/2) "Well" none] := by
  refine ⟨dedup_head, dedup_cons_cons, ?_, by with_unfolding_all decide, by with_unfolding_all decide⟩
  intro a b
  cases hp1 : a.start_time.parse (-1) with
  | none => simp [dropsB, hp1]
  | some t1 =>
    cases hp2 : b.start_time.parse (-1) with
    | none => simp [dropsB, hp1, hp2]
    | some t2 =>
      cases hp3 : dedupContent a.alternatives with
      | none => simp [dropsB, hp1, hp2, hp3]
      | some c1 =>
        cases hp4 : dedupContent b.alternatives with
        | none => simp [dropsB, hp1, hp2, hp3, hp4]
        | some c2 => simp [dropsB, hp1, hp2, hp3, hp4]

/-- C2 (counterexample): on a document whose flat `items` list holds
speaker `A` at `[0, 5]`, speaker `B` at `[3, 3.5]` and speaker `A` again
at `[4, 10]`, reconstruction emits three utterances whose two
`A`-utterances have overlapping windows (`[0,5]` and `[4,10]`), refuting
the claimed same-speaker non-overlap invariant. -/
theorem C2_counterexample :
    reconstruct_utterances_with_timestamps
        (itemsDoc [pronTok 0 5 "a" (some "A"), pronTok 3 (7/2) "b" (some "B"),
                   pronTok 4 10 "c" (some "A")]) (6/5) =
      .ok [⟨"A", some 0, some 5, "a"⟩, ⟨"B", some 3, some (7/2), "b"⟩,
           ⟨"A", some 4, some 10, "c"⟩] ∧
    sameSpeakerDisjointB
      [⟨"A", some 0, some 5, "a"⟩, ⟨"B", some 3, some (7/2), "b"⟩,
       ⟨"A", some 4, some 10, "c"⟩] = false := by
  exact ⟨by with_unfolding_all rfl, by decide⟩

/-- C2 (amended): whenever the pronunciation start times of the token list
fed to the segmentation loop are nondecreasing, the emitted utterances are
ordered by nondecreasing (not necessarily strictly increasing)
`start_time`; same-speaker windows may still overlap. -/
theorem C2_amended_nondecreasing :
    ∀ (ranges : List SRange) (gap : ℚ) (items : List Token) (us : List Utt),
      List.Pairwise (· ≤ ·) (items.filterMap pronStartOf) →
      reconLoop ranges gap items = .ok us →
      List.Pairwise (fun a b => uttLeB a b = true) us :=
  fun ranges gap items us h1 h2 => reconLoop_pairwise ranges gap items us h1 h2

theorem C2_amended_nondecreasing_witness :
    List.Pairwise (fun a b => uttLeB a b = true)
      [⟨"A", some 0, some 1, "a"⟩, ⟨"A", some 5, some 6, "b"⟩] :=
  C2_amended_nondecreasing [] (6/5)
    [pronTok 0 1 "a" (some "A"), pronTok 5 6 "b" (some "A")]
    [⟨"A", some 0, some 1, "a"⟩, ⟨"A", some 5, some 6, "b"⟩]
    (by with_unfolding_all decide) (by with_unfolding_all rfl)

/-- C3: whenever a pronunciation token arrives with
`start_time - last_word_end > gap_seconds`, the current buffer is flushed
and a fresh buffer boundary is opened at that token (start time set to the
token's start, parts reset to its content) regardless of the resolved
label; the scenario with one speaker ending at `t = 10` and resuming at
`t = 12` under `gap_seconds = 1.2` yields two utterances. -/
theorem C3_gap_flush :
    (∀ (ranges : List SRange) (gap : ℚ) (s : RState) (it : Token) (content : String)
        (st en lw : ℚ) (s' : RState),
      altsContent it.alternatives = some content →
      it.type_ = some "pronunciation" →
      it.start_time.parse 0 = some st →
      it.end_time.parse 0 = some en →
      s.last_word_end = some lw →
      gap < st - lw →
      reconStep ranges gap s it = .ok s' →
      s'.utterances = (flushBuf s).utterances ∧
      s'.cur.speaker_label = resolveLabel ranges st s.cur.speaker_label it.speaker_label ∧
      s'.cur.start_time = some st ∧ s'.cur.text_parts = [content]) ∧
    reconstruct_utterances_with_timestamps
        (itemsDoc [pronTok (19/2) 10 "a" (some "spk_0"), pronTok 12 (25/2) "b" (some "spk_0")]) (6/5) =
      .ok [⟨"spk_0", some (19/2), some 10, "a"⟩, ⟨"spk_0", some 12, some (25/2), "b"⟩] := by
  constructor
  · intro ranges gap s it content st en lw s' hac ht hst hen hlw hgap hstep
    have hcond : resolveLabel ranges st s.cur.speaker_label it.speaker_label ≠ s.cur.speaker_label ∨
        shouldGapFlush s.last_word_end st gap = true := by
      right
      rw [hlw]
      exact decide_eq_true hgap
    rw [reconStep_pron_flush ranges gap s it content st en hac ht hst hen hcond] at hstep
    cases Except.ok.inj hstep
    exact ⟨rfl, rfl, rfl, rfl⟩
  · with_unfolding_all rfl

theorem C3_gap_flush_witness :
    (⟨[⟨"spk_0", some (19/2), some 10, "a"⟩],
      ⟨some "spk_0", some 12, some (25/2), ["b"]⟩, some (25/2)⟩ : RState).utterances =
      (flushBuf ⟨[], ⟨some "spk_0", some (19/2), some 10, ["a"]⟩, some 10⟩).utterances :=
  (C3_gap_flush.1 [] (6/5) ⟨[], ⟨some "spk_0", some (19/2), some 10, ["a"]⟩, some 10⟩
    (pronTok 12 (25/2) "b" (some "spk_0")) "b" 12 (25/2) 10
    ⟨[⟨"spk_0", some (19/2), some 10, "a"⟩],
     ⟨some "spk_0", some 12, some (25/2), ["b"]⟩, some (25/2)⟩
    rfl rfl rfl rfl rfl (by norm_num) (by with_unfolding_all rfl)).1

/-- C4: coalescing is idempotent for every utterance list and every gap
policy (no threshold, or any rational threshold): running the same-speaker
adjacent merge twice gives the same result as running it once. -/
theorem C4_coalesce_idempotent :
    ∀ (us : List CoUtt) (g : Option ℚ),
      coalesce_utterances (coalesce_utterances us g) g = coalesce_utterances us g :=
  fun us g => coalesce_of_chain _ g (coalesce_chain us g)

/-- C5 (counterexample): a single pronunciation token whose content is the
empty string is emitted as an utterance with empty text, refuting the
claim that every emitted utterance has non-empty text (the flush guard
checks that the list of parts is non-empty, not the joined text). -/
theorem C5_counterexample :
    reconstruct_utterances_with_timestamps (itemsDoc [pronTok 0 (1/2) "" (some "spk_0")]) (6/5) =
      .ok [⟨"spk_0", some 0, some (1/2), ""⟩] ∧
    (⟨"spk_0", some 0, some (1/2), ""⟩ : Utt).text = "" :=
  ⟨by with_unfolding_all rfl, rfl⟩

/-- C5 (amended): every utterance the reconstructor emits carries a
non-null, non-empty speaker label, and a flush whose buffer lacks a truthy
label or holds no accumulated part discards the buffer silently; the
joined-and-stripped text itself may still be empty. -/
theorem C5_amended_labels :
    (∀ (t : Transcript) (gap : ℚ) (us : List Utt),
      reconstruct_utterances_with_timestamps t gap = .ok us →
      ∀ u ∈ us, u.speaker_label ≠ "") ∧
    (∀ s : RState,
      s.cur.speaker_label = none ∨ s.cur.speaker_label = some "" ∨ s.cur.text_parts = [] →
      (flushBuf s).utterances = s.utterances) := by
  constructor
  · intro t gap us h u hu
    obtain ⟨items0, ranges, hloop⟩ := reconstruct_ok_loop t gap us h
    exact reconLoop_labels ranges gap (dedup items0) us hloop u hu
  · intro s hs
    have hemit : emitOf s.cur = none := by
      rcases hs with h | h | h
      · unfold emitOf; rw [h]
      · unfold emitOf; rw [h]; simp
      · unfold emitOf
        cases hl : s.cur.speaker_label with
        | none => rfl
        | some l => simp [h]
    simp [flushBuf, hemit]

theorem C5_amended_labels_witness :
    decide ((⟨"A", some 0, some 1, "hi"⟩ : Utt).speaker_label ≠ "") = true :=
  decide_eq_true
    (C5_amended_labels.1 (itemsDoc [pronTok 0 1 "hi" (some "A")]) (6/5)
      [⟨"A", some 0, some 1, "hi"⟩] (by with_unfolding_all rfl)
      ⟨"A", some 0, some 1, "hi"⟩ (List.mem_singleton.mpr rfl))

/-- C6: each record-stream line carries exactly the
`(speaker_label, start_time, end_time, text)` tuple of the corresponding
utterance, in order, and its `speaker_name` is null exactly when the label
is absent from the speaker map. -/
theorem C6_jsonl_fields :
    (∀ (us : List Utt) (m : List (String × String)),
      (utterances_to_jsonl us m).map (fun r => (r.speaker_label, r.start_time, r.end_time, r.text)) =
        us.map (fun u => (u.speaker_label, u.start_time, u.end_time, u.text))) ∧
    (∀ (us : List Utt) (m : List (String × String)), recordsNullOk m (utterances_to_jsonl us m)) ∧
    (∀ (m : List (String × String)) (k : String),
      lookupMap m k = none ↔ m.all (fun p => !(p.1 == k)) = true) := by
  refine ⟨?_, ?_, lookupMap_none_iff⟩
  · intro us m
    rw [utterances_to_jsonl, List.map_map]
    rfl
  · intro us m
    induction us with
    | nil => trivial
    | cons u rest ih => exact ⟨Iff.rfl, ih⟩

/-- C7: the speaker lookup scans the ranges in input order and returns the
label of the first range with `start <= t < end` (half-open: `t` equal to
a range's end does not match it); on a miss it returns the fallback label,
and the reconstruction loop passes the current buffer's speaker (possibly
`None`) as that fallback. -/
theorem C7_speaker_lookup :
    (∀ (ranges : List SRange) (t : ℚ) (fb : Option String),
      speaker_for_time ranges t fb =
        match ranges.find? (fun r => decide (r.start_time ≤ t ∧ t < r.end_time)) with
        | some r => some r.speaker_label
        | none => fb) ∧
    (∀ (st en : ℚ) (lab : String) (rest : List SRange) (fb : Option String),
      speaker_for_time (⟨st, en, lab⟩ :: rest) en fb = speaker_for_time rest en fb) ∧
    (∀ (ranges : List SRange) (st : ℚ) (curLabel : Option String),
      resolveLabel ranges st curLabel none = speaker_for_time ranges st curLabel) := by
  refine ⟨speaker_for_time_find, ?_, fun _ _ _ => rfl⟩
  intro st en lab rest fb
  simp [speaker_for_time, lt_irrefl]

/-- C8 (counterexample): two adjacent tokens that both lack `start_time`
and `alternatives` take the `.get` defaults (`-1.0` and `""`), compare
equal, and the second is dropped — refuting the claim that a token with a
missing timing or text field is always kept. -/
theorem C8_counterexample :
    dedupFieldIssueB ⟨none, .missing, .missing, .absent, none⟩ = true ∧
    dedup [⟨none, .missing, .missing, .absent, none⟩, ⟨none, .missing, .missing, .absent, none⟩] =
      [⟨none, .missing, .missing, .absent, none⟩] := by
  exact ⟨by decide, by with_unfolding_all decide⟩

/-- C8 (amended): the dedup comparison keeps the current token whenever a
field access raises — an unparseable `start_time` or a malformed
`alternatives` entry on either token; missing fields instead take the
defaults `-1.0` / `""` and participate in the comparison. -/
theorem C8_amended_fail_open :
    ∀ (a b : Token) (l : List Token),
      (a.start_time = .malformed ∨ dedupContent a.alternatives = none ∨
       b.start_time = .malformed ∨ dedupContent b.alternatives = none) →
      dedup (a :: b :: l) = a :: dedup (b :: l) := by
  intro a b l h
  have hd : dropsB a b = false := by
    unfold dropsB
    split
    · rename_i t1 t2 c1 c2 hp1 hp2 hp3 hp4
      exfalso
      rcases h with h | h | h | h
      · rw [h] at hp1; exact Option.noConfusion hp1
      · rw [h] at hp3; exact Option.noConfusion hp3
      · rw [h] at hp2; exact Option.noConfusion hp2
      · rw [h] at hp4; exact Option.noConfusion hp4
    · rfl
  rw [dedup_cons_cons, hd]
  simp

theorem C8_amended_fail_open_witness :
    dedup [⟨none, .malformed, .missing, .firstDict (some "x"), none⟩, pronTok 1 2 "x" none] =
      ⟨none, .malformed, .missing, .firstDict (some "x"), none⟩ :: dedup [pronTok 1 2 "x" none] :=
  C8_amended_fail_open ⟨none, .malformed, .missing, .firstDict (some "x"), none⟩
    (pronTok 1 2 "x" none) [] (Or.inl rfl)

/-- C9 (counterexample): a document whose `results` is a dict with a
usable `items` token source still raises (a `ValueError` from `float`)
when a pronunciation token's `start_time` is unparseable — refuting the
"if and only if" shape of the claimed fatal-error condition. -/
theorem C9_counterexample :
    (itemsDoc [⟨some "pronunciation", .malformed, .val 1, .firstDict (some "x"), some "A"⟩]).resultsVal =
      .obj none none
        (some (.lst [.tok ⟨some "pronunciation", .malformed, .val 1, .firstDict (some "x"), some "A"⟩])) ∧
    reconstruct_utterances_with_timestamps
        (itemsDoc [⟨some "pronunciation", .malformed, .val 1, .firstDict (some "x"), some "A"⟩]) (6/5) =
      .error "ValueError: could not convert string to float" :=
  ⟨rfl, by with_unfolding_all rfl⟩

/-- C9 (amended): reconstruction raises when the input lacks a usable
token source (`items` and `channel_labels` both absent, whatever the
`speaker_labels` value, also when `results` itself is missing) or when
`results` is not a dict; it can additionally raise on unparseable numeric
fields; and a document with no `speaker_labels` section and one unlabeled
pronunciation token yields zero utterances without a fatal error. -/
theorem C9_amended_errors :
    (∀ g : ℚ, reconstruct_utterances_with_timestamps ⟨some .notDict⟩ g =
      .error "TypeError: the results key should be a dict") ∧
    (∀ (g : ℚ) (sl : Option SpeakerLabelsVal),
      reconstruct_utterances_with_timestamps ⟨some (.obj sl none none)⟩ g =
        .error "ValueError: Transcript missing items or channel_labels.") ∧
    (∀ g : ℚ, reconstruct_utterances_with_timestamps ⟨none⟩ g =
      .error "ValueError: Transcript missing items or channel_labels.") ∧
    reconstruct_utterances_with_timestamps (itemsDoc [pronTok 0 (1/2) "hi" none]) (6/5) = .ok [] ∧
    reconstruct_utterances_with_timestamps
        (itemsDoc [⟨some "pronunciation", .val 0, .malformed, .firstDict (some "y"), some "B"⟩]) (6/5) =
      .error "ValueError: could not convert string to float" :=
  ⟨fun _ => rfl, fun _ _ => rfl, fun _ => rfl, by with_unfolding_all rfl, by with_unfolding_all rfl⟩

/-- C10: a flush performed while the buffer's speaker label is null
discards the accumulated text (emits nothing), and a step that installs a
label into a previously unlabeled buffer resets the parts to exactly the
incoming token's content — so text buffered under a null label (for
example punctuation arriving before any labeled pronunciation token)
never appears in any emitted utterance. -/
theorem C10_unlabeled_buffer_discarded :
    (∀ s : RState, s.cur.speaker_label = none → (flushBuf s).utterances = s.utterances) ∧
    (∀ (ranges : List SRange) (gap : ℚ) (s : RState) (it : Token) (s' : RState),
      s.cur.speaker_label = none →
      reconStep ranges gap s it = .ok s' →
      s'.utterances = s.utterances ∧
      (∀ l, s'.cur.speaker_label = some l →
        ∃ c, altsContent it.alternatives = some c ∧ s'.cur.text_parts = [c])) ∧
    reconstruct_utterances_with_timestamps
        (itemsDoc [punctTok ".", pronTok 0 1 "hi" (some "A")]) (6/5) =
      .ok [⟨"A", some 0, some 1, "hi"⟩] := by
  refine ⟨flushBuf_of_label_none, ?_, by with_unfolding_all rfl⟩
  intro ranges gap s it s' hnone hstep
  cases hac : altsContent it.alternatives with
  | none =>
    rw [reconStep_skip ranges gap s it hac] at hstep
    cases Except.ok.inj hstep
    refine ⟨rfl, ?_⟩
    intro l hl
    rw [hnone] at hl
    exact Option.noConfusion hl
  | some content =>
    by_cases ht : it.type_ = some "pronunciation"
    · cases hst : it.start_time.parse 0 with
      | none =>
        rw [reconStep_pron_err ranges gap s it content hac ht (Or.inl hst)] at hstep
        exact Except.noConfusion hstep
      | some st =>
        cases hen : it.end_time.parse 0 with
        | none =>
          rw [reconStep_pron_err ranges gap s it content hac ht (Or.inr hen)] at hstep
          exact Except.noConfusion hstep
        | some en =>
          by_cases hcond : resolveLabel ranges st s.cur.speaker_label it.speaker_label ≠ s.cur.speaker_label ∨
              shouldGapFlush s.last_word_end st gap = true
          · rw [reconStep_pron_flush ranges gap s it content st en hac ht hst hen hcond] at hstep
            cases Except.ok.inj hstep
            refine ⟨flushBuf_of_label_none s hnone, ?_⟩
            intro l hl
            exact ⟨content, rfl, rfl⟩
          · rw [reconStep_pron_noflush ranges gap s it content st en hac ht hst hen hcond] at hstep
            cases Except.ok.inj hstep
            refine ⟨rfl, ?_⟩
            intro l hl
            have hl' : s.cur.speaker_label = some l := hl
            rw [hnone] at hl'
            exact Option.noConfusion hl'
    · rw [reconStep_punct ranges gap s it content hac ht] at hstep
      cases Except.ok.inj hstep
      refine ⟨rfl, ?_⟩
      intro l hl
      have hl' : s.cur.speaker_label = some l := hl
      rw [hnone] at hl'
      exact Option.noConfusion hl'

theorem C10_unlabeled_buffer_discarded_witness :
    (⟨[], ⟨none, none, none, ["."]⟩, none⟩ : RState).utterances = RState.init.utterances :=
  (C10_unlabeled_buffer_discarded.2.1 [] (6/5) RState.init (punctTok ".")
    ⟨[], ⟨none, none, none, ["."]⟩, none⟩ rfl (by with_unfolding_all rfl)).1
